import Mathlib

set_option maxHeartbeats 1000000

/-!
Shallow embedding of the vote-record consolidation scripts of the
torrance-vote-viewer repository, together with theorems settling the
claims about them.

Modelling conventions:
* a Python dict with string keys is an insertion-ordered association list;
  assignment replaces the value of the first (unique) matching key in place
  and appends unknown keys at the end, exactly as CPython dicts do;
* a JSON field that may be absent is an `Option`; Python truthiness of a
  string is "non-empty", of an int "non-zero", of a dict "non-empty"
  (an absent or empty tally dict is `none`);
* Python ints are `Int` where scores may go negative and `Nat` for counts;
* `str.upper` / `str.lower` are mapped character-wise over the underlying
  character list (all strings involved are ASCII);
* the `in` operator on strings is substring containment.
-/

/-- Character-wise uppercase, modelling the Python `str.upper()` calls of the
repository (all compared literals are ASCII). -/
def upStr (s : String) : String := String.mk (s.data.map Char.toUpper)

/-- Character-wise lowercase, modelling `str.lower()`. -/
def loStr (s : String) : String := String.mk (s.data.map Char.toLower)

/-- Python truthiness of an optional string field: present and non-empty. -/
def truthyS (o : Option String) : Bool :=
  match o with
  | none => false
  | some s => !(s == "")

/-- Does the list start with the given pattern. -/
def hasPrefixL : List Char → List Char → Bool
  | _, [] => true
  | [], _ :: _ => false
  | a :: as, b :: bs => a == b && hasPrefixL as bs

/-- Substring containment on character lists (`needle` occurs in `hay`),
modelling the Python `in` operator on strings. -/
def hasSubL : List Char → List Char → Bool
  | [], needle => needle.isEmpty
  | hay@(_ :: t), needle => hasPrefixL hay needle || hasSubL t needle

/-- The Python expression `sub in s` for strings. -/
def containsStr (s sub : String) : Bool := hasSubL s.data sub.data

/-- Lookup in an insertion-ordered dict: value of the first entry with the
given key (`d.get(k)` / `d[k]`). -/
def dictGet (d : List (String × String)) (k : String) : Option String :=
  (d.find? (fun p => p.1 == k)).map (fun p => p.2)

/-- Python dict assignment `d[k] = v`: replace the value of the first entry
with key `k` in place, or append a new entry at the end. -/
def setKey : List (String × String) → String → String → List (String × String)
  | [], k, v => [(k, v)]
  | p :: d, k, v => if p.1 == k then (k, v) :: d else p :: setKey d k v

/-- Python `base.update(upd)`: assign every entry of `upd` in order. -/
def dictUpdate (base upd : List (String × String)) : List (String × String) :=
  upd.foldl (fun d p => setKey d p.1 p.2) base

/-- Value of the last entry of an association list carrying the given key
(the entry that survives when the list is replayed into a dict). -/
def lastGet (d : List (String × String)) (k : String) : Option String :=
  dictGet d.reverse k

/-- The reported tally dict of a raw vote observation
(`vote_tally: {ayes, noes, abstentions}`); a missing component reads as 0
via `.get(..., 0)`. -/
structure Tally where
  ayes : Nat
  noes : Nat
  abstentions : Nat
deriving Repr, DecidableEq

/-- A vote record as the scripts read it from the consolidated JSON store:
one extraction pass observation of a single ballot.  `none` models an
absent key (and, for `vote_tally`, also the empty dict `{}`, which every
script treats identically via Python falsiness). -/
structure Vote where
  id : Option String := none
  meeting_id : String := ""
  agenda_item : String := ""
  frame_number : Option Int := none
  individual_votes : List (String × String) := []
  vote_tally : Option Tally := none
  result : String := ""
  frame_path : String := ""
  motion_text : String := ""
  meta_id : Option String := none
  video_timestamp : Option Int := none
  timestamp_estimated : Option Bool := none
deriving Repr, DecidableEq

namespace FixVoteTally

/-- Membership test of `fix_vote_tally.py` line 31:
`vote_result_upper in ['YES', 'Y', 'AYE']`. -/
def isYes (choice : String) : Bool :=
  upStr choice == "YES" || upStr choice == "Y" || upStr choice == "AYE"

/-- Line 33: `vote_result_upper in ['NO', 'N', 'NAY']`. -/
def isNo (choice : String) : Bool :=
  upStr choice == "NO" || upStr choice == "N" || upStr choice == "NAY"

/-- Line 35: `vote_result_upper in ['ABSTAIN', 'ABSTENTION']`. -/
def isAbst (choice : String) : Bool :=
  upStr choice == "ABSTAIN" || upStr choice == "ABSTENTION"

/-- Number of individual-vote entries counted as ayes by the loop at
lines 29-36 of `fix_vote_tally.py`. -/
def countYes (ivs : List (String × String)) : Nat :=
  ivs.countP (fun p => isYes p.2)

/-- Entries counted as noes. -/
def countNo (ivs : List (String × String)) : Nat :=
  ivs.countP (fun p => isNo p.2)

/-- Entries counted as abstentions. -/
def countAbst (ivs : List (String × String)) : Nat :=
  ivs.countP (fun p => isAbst p.2)

/-- Per-vote body of `fix_vote_tally_data` (lines 18-53): only when the
stored `vote_tally` is missing or the empty dict, and `individual_votes`
is non-empty, the tally is recalculated from `individual_votes` and the
`result` is rederived from the new tally; otherwise the vote is left
untouched. -/
def fixVote (v : Vote) : Vote :=
  if v.vote_tally.isNone then
    if v.individual_votes.isEmpty then v
    else
      let ayes := countYes v.individual_votes
      let noes := countNo v.individual_votes
      let abst := countAbst v.individual_votes
      { v with
        vote_tally := some ⟨ayes, noes, abst⟩
        result :=
          if ayes > noes then "Motion Passes"
          else if noes > ayes then "Motion Fails"
          else "Tie" }
  else v

/-- `fix_vote_tally_data` applied to the vote list of the store. -/
def fix_vote_tally_data (votes : List Vote) : List Vote :=
  votes.map fixVote

end FixVoteTally

namespace FrameDedup

/-- Quality scorer of `fix_frame_duplicates.py` lines 38-73: +100 for a
truthy id, +10 per individual-vote entry, +5 per unit of a non-zero
reported tally total, +1 per character of the agenda description (the
source also accepts a dict-shaped agenda item and then measures its
description field; the store votes modelled here carry string agenda
items), and +20 for a present frame path.  No term reads `result`. -/
def get_vote_score (v : Vote) : Int :=
  let s1 : Int := if truthyS v.id then 100 else 0
  let s2 : Int := if !v.individual_votes.isEmpty then
      s1 + 10 * (v.individual_votes.length : Int) else s1
  let s3 : Int :=
    match v.vote_tally with
    | none => s2
    | some t =>
        let total : Nat := t.ayes + t.noes + t.abstentions
        if total > 0 then s2 + 5 * (total : Int) else s2
  let s4 : Int := s3 + (v.agenda_item.length : Int)
  let s5 : Int := if !(v.frame_path == "") then s4 + 20 else s4
  s5

end FrameDedup

namespace CompDedup

/-- Reported ayes as read by `vote.get('vote_tally', {}).get('ayes', 0)`. -/
def tallyAyes (v : Vote) : Nat :=
  match v.vote_tally with
  | none => 0
  | some t => t.ayes

/-- Quality scorer of `comprehensive_deduplication.py` lines 49-80:
+100 for a truthy id, +50 when the lower-cased result contains "pass" and
otherwise -50 when it contains "fail", an additional -30 when the result
contains "pass" but the reported ayes are 0, +2 per individual-vote
entry, +10 for a present frame path and +5 for a present motion text. -/
def get_vote_score (v : Vote) : Int :=
  let s1 : Int := if truthyS v.id then 100 else 0
  let res := loStr v.result
  let s2 : Int :=
    if containsStr res "pass" then s1 + 50
    else if containsStr res "fail" then s1 - 50
    else s1
  let s3 : Int :=
    if containsStr res "pass" && tallyAyes v == 0 then s2 - 30 else s2
  let s4 : Int := if !v.individual_votes.isEmpty then
      s3 + 2 * (v.individual_votes.length : Int) else s3
  let s5 : Int := if !(v.frame_path == "") then s4 + 10 else s4
  let s6 : Int := if !(v.motion_text == "") then s5 + 5 else s5
  s6

end CompDedup

/-- The element kept from a duplicate group: the scripts build
`scored_votes`, sort them by score descending with Python `list.sort`
(which is stable, so votes tying on score keep their input order) and take
the first element.  The head of such a sort is the first vote of the group
attaining the maximal score, which this function computes directly. -/
def pickBest (score : Vote → Int) : Vote → List Vote → Vote
  | v, [] => v
  | v, w :: ws => if score w > score v then pickBest score w ws else pickBest score v ws

/-- First-occurrence deduplication of a key list with an accumulator of
already seen keys: the iteration order of a Python dict whose keys were
inserted in list order. -/
def nubAux : List String → List String → List String
  | [], _ => []
  | k :: ks, seen => if k ∈ seen then nubAux ks seen else k :: nubAux ks (k :: seen)

/-- Distinct keys of a list in first-occurrence order. -/
def nub (l : List String) : List String := nubAux l []

/-- The vote kept from the duplicate group of key `k` (lines 106-131 of
`comprehensive_deduplication.py`): the group is the sublist of votes with
that key in input order, and its first maximal-score member survives;
`none` only for keys with an empty group, which never arise below. -/
def groupPick (key : Vote → String) (score : Vote → Int) (votes : List Vote)
    (k : String) : Option Vote :=
  match votes.filter (fun v => key v == k) with
  | [] => none
  | v :: vs => some (pickBest score v vs)

/-- Grouping key used by `comprehensive_deduplication.py` line 98:
`meeting_id + "|||" + normalized agenda`, with the agenda text used as its
own normal form.  The source normalizer lower-cases, collapses whitespace
and strips a fixed set of boilerplate patterns; on agenda strings already
in that normal form (lower case, single spaces, none of the stripped
patterns) it is the identity, so this key coincides with the source key on
every concrete input used below. -/
def normKeySimple (v : Vote) : String := v.meeting_id ++ "|||" ++ v.agenda_item

/-- Core of `comprehensive_deduplication` (lines 82-137): votes are grouped
by `key` in first-occurrence order (a `defaultdict` keyed by meeting and
normalized agenda), and each group contributes exactly one kept vote, the
first one attaining the maximal quality score (`scored_votes.sort`
descending is stable, then element 0 is kept); the remaining group members
are removed, with only a removed-count reported.  The source fixes
`key = normKeySimple`-with-normalizer and `score = CompDedup.get_vote_score`;
both are parameters here, every theorem below holding for arbitrary
instantiations. -/
def comprehensive_deduplication (key : Vote → String) (score : Vote → Int)
    (votes : List Vote) : List Vote :=
  (nub (votes.map key)).filterMap (groupPick key score votes)

namespace Bulletproof

/-- The `VoteData` dataclass of `bulletproof_import.py` lines 57-67. -/
structure VoteData where
  meeting_id : String
  agenda_item : String
  frame_number : Int
  individual_votes : List (String × String)
  meta_id : Option String
  video_timestamp : Option Int
  timestamp_estimated : Bool
  consolidated_from : List String
deriving Repr, DecidableEq

/-- Grouping key of `deduplicate_votes` line 153:
`f"{meeting_id}_{agenda_item}"` (no normalization). -/
def bpKey (v : Vote) : String := v.meeting_id ++ "_" ++ v.agenda_item

/-- Provenance id recorded for an observation:
`vote.get('id', f"{meeting_id}_{agenda_item}")` — the stored id when the
key is present (even if empty), else the group key. -/
def provenanceId (v : Vote) : String :=
  match v.id with
  | some s => s
  | none => bpKey v

/-- `process_single_vote` (lines 175-186). -/
def process_single_vote (v : Vote) : VoteData :=
  { meeting_id := v.meeting_id
    agenda_item := v.agenda_item
    frame_number := v.frame_number.getD 0
    individual_votes := v.individual_votes
    meta_id := v.meta_id
    video_timestamp := v.video_timestamp
    timestamp_estimated := v.timestamp_estimated.getD true
    consolidated_from := [provenanceId v] }

/-- Python `min(votes, key=lambda v: v.get('frame_number', 0))`: the first
vote attaining the minimal frame number. -/
def minByFrame : Vote → List Vote → Vote
  | v, [] => v
  | v, w :: ws =>
      if w.frame_number.getD 0 < v.frame_number.getD 0 then minByFrame w ws
      else minByFrame v ws

/-- The `merged_votes` dict of `consolidate_vote_group` lines 193-202:
starting from the empty dict, `merged_votes.update(vote['individual_votes'])`
is executed for every vote of the group in input order, so a later vote of
the group overwrites the entries of an earlier one whenever both carry the
same member. -/
def mergeIndividual (votes : List Vote) : List (String × String) :=
  votes.foldl (fun acc v => dictUpdate acc v.individual_votes) []

/-- `consolidate_vote_group` (lines 188-216) on a non-empty group: the vote
with the lowest frame number is the `primary_vote` supplying the metadata
fields, the individual votes are the input-order dict merge, and the
provenance collects every group member id in input order. -/
def consolidate_vote_group (v : Vote) (vs : List Vote) : VoteData :=
  let primary := minByFrame v vs
  { meeting_id := primary.meeting_id
    agenda_item := primary.agenda_item
    frame_number := primary.frame_number.getD 0
    individual_votes := mergeIndividual (v :: vs)
    meta_id := primary.meta_id
    video_timestamp := primary.video_timestamp
    timestamp_estimated := primary.timestamp_estimated.getD true
    consolidated_from := (v :: vs).map provenanceId }

/-- The consolidated record produced for the duplicate group of key `k`
(lines 160-170): a singleton group passes through `process_single_vote`, a
larger group through `consolidate_vote_group`. -/
def groupConsolidate (votes : List Vote) (k : String) : Option VoteData :=
  match votes.filter (fun v => bpKey v == k) with
  | [] => none
  | [v] => some (process_single_vote v)
  | v :: vs => some (consolidate_vote_group v vs)

/-- `deduplicate_votes` (lines 146-173): group by `bpKey` in
first-occurrence order and consolidate each group. -/
def deduplicate_votes (votes : List Vote) : List VoteData :=
  (nub (votes.map bpKey)).filterMap (groupConsolidate votes)

/-- The vote-list part of `merge_with_existing_data` (line 515):
`merged_votes = existing_votes + new_votes_dict`, a plain concatenation of
the newly deduplicated votes onto the existing store, with no
deduplication against it. -/
def merge_with_existing_votes (existing newVotes : List VoteData) :
    List VoteData :=
  existing ++ newVotes

/-- A meta-id mapping entry produced by `extract_meta_mappings`
(lines 250-266): a video timestamp together with
`timestamp_estimated: False`. -/
structure MetaInfo where
  video_timestamp : Int
  timestamp_estimated : Bool
deriving Repr, DecidableEq

/-- Lookup in a meta-id mapping. -/
def metaGet (mappings : List (String × MetaInfo)) (k : String) :
    Option MetaInfo :=
  (mappings.find? (fun p => p.1 == k)).map (fun p => p.2)

/-- `calculate_match_score` (lines 322-332): `score = 0.0`, then a flat
`score += 0.3` for having a meta id; the commented further terms are not
implemented, so every candidate scores exactly 0.3. -/
def calculate_match_score (_v : VoteData) (_metaId : String) : ℚ :=
  0 + 3 / 10

/-- `find_best_meta_match` (lines 304-320): best candidate under strictly
increasing score, accepted only when the best score exceeds 0.5. -/
def find_best_meta_match (v : VoteData) (mappings : List (String × MetaInfo)) :
    Option String :=
  let best := mappings.foldl
    (fun (acc : Option String × ℚ) p =>
      if calculate_match_score v p.1 > acc.2 then
        (some p.1, calculate_match_score v p.1)
      else acc)
    (none, 0)
  if best.2 > 1 / 2 then best.1 else none

/-- Zero-padding `f"{frame_number:04d}"` for the frame numbers that occur
(non-negative, at most four digits). -/
def pad4 (n : Int) : String :=
  let s := toString n
  if n < 10 then "000" ++ s
  else if n < 100 then "00" ++ s
  else if n < 1000 then "0" ++ s
  else s

/-- `estimate_timestamp_from_agenda` (lines 334-356): 30 seconds per frame,
plus a fixed offset chosen by the first matching category substring of the
lower-cased agenda text; a falsy agenda item gets the bare base (the
non-string branch of the source guard cannot arise in this typed model). -/
def estimate_timestamp_from_agenda (agenda : String) (frame : Int) : Int :=
  if agenda == "" then frame * 30
  else
    let lower := loStr agenda
    let base := frame * 30
    if containsStr lower "consent" then base + 300
    else if containsStr lower "public hearing" then base + 1800
    else if containsStr lower "adjournment" then base + 3600
    else if containsStr lower "resolution" then base + 1200
    else if containsStr lower "ordinance" then base + 1500
    else base + 900

/-- Per-vote body of `map_meta_ids_to_votes` (lines 287-301) for the path
where scraped mappings are available: a vote of the meeting without a meta
id either receives an accepted match (copying the mapping timestamp and
its estimated flag) or falls back to the generated meta id and the
deterministic timestamp estimate flagged `timestamp_estimated = True`.
The inner `none` arm of the lookup is unreachable because an accepted
match is always a mapping key (in the source an absent key would raise);
it leaves the vote unchanged here. -/
def processVoteMeta (v : VoteData) (meetingId : String)
    (mappings : List (String × MetaInfo)) : VoteData :=
  if v.meeting_id == meetingId && v.meta_id.isNone then
    match find_best_meta_match v mappings with
    | some mid =>
        match metaGet mappings mid with
        | some info =>
            { v with
              meta_id := some mid
              video_timestamp := some info.video_timestamp
              timestamp_estimated := info.timestamp_estimated }
        | none => v
    | none =>
        { v with
          meta_id := some (meetingId ++ pad4 v.frame_number)
          video_timestamp :=
            some (estimate_timestamp_from_agenda v.agenda_item v.frame_number)
          timestamp_estimated := true }
  else v

end Bulletproof

namespace UpdateStats

/-- One member record of `councilmember_stats` as built by
`update_councilmember_stats.py` lines 24-30: four counters, with `recused`
absent — the script tracks only the three named buckets next to the
separately incremented total. -/
structure StatRec where
  total_votes : Nat
  yes_votes : Nat
  no_votes : Nat
  abstentions : Nat
deriving Repr, DecidableEq

/-- The zero-initialised record of lines 25-30. -/
def zeroStat : StatRec := ⟨0, 0, 0, 0⟩

/-- Lines 32-39: `total_votes` is incremented for every entry, and exactly
one of the three named buckets is incremented when the upper-cased choice
is YES, NO or ABSTAIN; any other choice (for example RECUSE) increments no
bucket. -/
def statUpd (s : StatRec) (choice : String) : StatRec :=
  let s1 := { s with total_votes := s.total_votes + 1 }
  if upStr choice == "YES" then { s1 with yes_votes := s1.yes_votes + 1 }
  else if upStr choice == "NO" then { s1 with no_votes := s1.no_votes + 1 }
  else if upStr choice == "ABSTAIN" then
    { s1 with abstentions := s1.abstentions + 1 }
  else s1

/-- Processing of a single `(councilmember, vote_choice)` item (lines
23-39): initialise the member record on first sight, then update it. -/
def updateEntry : List (String × StatRec) → String → String →
    List (String × StatRec)
  | [], m, c => [(m, statUpd zeroStat c)]
  | p :: st, m, c =>
      if p.1 == m then (p.1, statUpd p.2 c) :: st
      else p :: updateEntry st m c

/-- Lookup of a member record. -/
def statLookup (st : List (String × StatRec)) (m : String) : Option StatRec :=
  (st.find? (fun p => p.1 == m)).map (fun p => p.2)

/-- Stats accumulated over a flat list of `(member, choice)` entries. -/
def statsOfEntries (entries : List (String × String)) : List (String × StatRec) :=
  entries.foldl (fun st p => updateEntry st p.1 p.2) []

/-- `update_councilmember_stats` (lines 8-48 of
`update_councilmember_stats.py`, and identically lines 544-579 of
`bulletproof_import.py`): a fresh `stats = {}` is filled by replaying every
`individual_votes` entry of every vote; the result replaces the stored
`councilmember_stats` wholesale. -/
def update_councilmember_stats (votes : List Vote) : List (String × StatRec) :=
  votes.foldl
    (fun st v =>
      v.individual_votes.foldl (fun st2 p => updateEntry st2 p.1 p.2) st)
    []

/-- A choice counted by no named bucket: its upper-case form is none of
YES, NO, ABSTAIN. -/
def isUnrec (choice : String) : Bool :=
  !(upStr choice == "YES") && !(upStr choice == "NO") &&
    !(upStr choice == "ABSTAIN")

/-- Number of entries of the given member across all votes whose choice
falls outside the three named buckets. -/
def unrecCount (votes : List Vote) (m : String) : Nat :=
  (votes.flatMap (fun v => v.individual_votes)).countP
    (fun p => p.1 == m && isUnrec p.2)

end UpdateStats

namespace MetaIds

/-- `find_best_meta_id_match` of `fix_all_meta_ids.py` (lines 85-123):
iterate the available meta-id candidates keeping the strictly best score,
and accept the best candidate only when its score reaches the fixed
minimum threshold 5.  The per-candidate score of the source (exact key
phrases +10 each, word overlap +2 each, close-length bonus +1, computed
from `normalize_text` and `extract_key_phrases` of the agenda item and the
candidate key) is abstracted as the function parameter `score`, already
applied to the agenda item; every theorem below holds for an arbitrary
score function, hence for the source one. -/
def find_best_meta_id_match (score : String → Int)
    (avail : List (String × Int)) : Option Int :=
  let best := avail.foldl
    (fun (acc : Option Int × Int) p =>
      if score p.1 > acc.2 then (some p.2, score p.1) else acc)
    (none, 0)
  if best.2 ≥ 5 then best.1 else none

/-- A consolidated-store vote as `fix_all_meta_ids.py` touches it: in this
file meta ids are the integers of `meta_id_mapping.json`. -/
structure StoreVote where
  agenda_item : String := ""
  meta_id : Option Int := none
  video_timestamp : Option Int := none
  timestamp_estimated : Option Bool := none
deriving Repr, DecidableEq

/-- Python truthiness of an optional int (0 and absent are falsy). -/
def truthyI (o : Option Int) : Bool :=
  match o with
  | none => false
  | some n => !(n == 0)

/-- Python truthiness of an optional bool. -/
def truthyB (o : Option Bool) : Bool :=
  match o with
  | none => false
  | some b => b

/-- Timestamp lookup `meeting_timestamps[str(best_meta_id)]`. -/
def tsGet (tsMap : List (String × Int)) (k : String) : Option Int :=
  (tsMap.find? (fun p => p.1 == k)).map (fun p => p.2)

/-- Per-vote body of `fix_meeting_meta_ids` (lines 136-163): a vote already
carrying a truthy meta id and timestamp with a falsy estimated flag is
skipped; otherwise, when the matcher accepts a candidate and a timestamp
is known for it, the vote receives the matched meta id, its scraped
timestamp and `timestamp_estimated = False`; in every other case the vote
is left unchanged (no fallback estimate exists in this file). -/
def fix_vote_meta (score : String → Int) (avail : List (String × Int))
    (tsMap : List (String × Int)) (v : StoreVote) : StoreVote :=
  if truthyI v.meta_id && truthyI v.video_timestamp &&
      !(truthyB v.timestamp_estimated) then v
  else
    match find_best_meta_id_match score avail with
    | some mid =>
        match tsGet tsMap (toString mid) with
        | some ts =>
            { v with
              meta_id := some mid
              video_timestamp := some ts
              timestamp_estimated := some false }
        | none => v
    | none => v

end MetaIds

/-- Specification helper: the individual-vote entry that a replayed dict
merge ends up storing for member `k` — the value of the last entry with
key `k` of the last vote (in input order) that mentions `k` at all. -/
def lastProvided (votes : List Vote) (k : String) : Option String :=
  votes.reverse.findSome? (fun v => lastGet v.individual_votes k)

namespace UpdateStats

/-- Sum of the `total_votes` counters over all member records. -/
def totalSum (st : List (String × StatRec)) : Nat :=
  (st.map (fun p => p.2.total_votes)).sum

/-- Specification helper: entries of member `m` in a flat entry list. -/
def cntAll (entries : List (String × String)) (m : String) : Nat :=
  entries.countP (fun p => p.1 == m)

/-- Entries of member `m` whose choice upper-cases to YES. -/
def cntYes (entries : List (String × String)) (m : String) : Nat :=
  entries.countP (fun p => p.1 == m && upStr p.2 == "YES")

/-- Entries of member `m` whose choice upper-cases to NO. -/
def cntNo (entries : List (String × String)) (m : String) : Nat :=
  entries.countP (fun p => p.1 == m && upStr p.2 == "NO")

/-- Entries of member `m` whose choice upper-cases to ABSTAIN. -/
def cntAbst (entries : List (String × String)) (m : String) : Nat :=
  entries.countP (fun p => p.1 == m && upStr p.2 == "ABSTAIN")

/-- Entries of member `m` counted by no named bucket. -/
def cntUnrec (entries : List (String × String)) (m : String) : Nat :=
  entries.countP (fun p => p.1 == m && isUnrec p.2)

/-- Specification helper: the member record grown by the counts of a flat
entry list. -/
def bumpRec (r : StatRec) (entries : List (String × String)) (m : String) :
    StatRec :=
  ⟨r.total_votes + cntAll entries m, r.yes_votes + cntYes entries m,
    r.no_votes + cntNo entries m, r.abstentions + cntAbst entries m⟩

end UpdateStats

/-! Concrete records used by the counterexample and witness theorems.  The
agenda strings are lower case, single-spaced and free of every boilerplate
pattern stripped by the source normalizers, so they are fixed points of
agenda normalization. -/

namespace Cex

/-- A vote whose stored non-empty tally disagrees with its individual
votes: 5 reported ayes next to a single recorded NO. -/
def tallyKept : Vote :=
  { id := some "vote-1", meeting_id := "100",
    agenda_item := "5a. consent calendar",
    vote_tally := some ⟨5, 0, 0⟩, individual_votes := [("SMITH", "NO")] }

/-- A vote with an empty tally to be recomputed. -/
def tallyFix : Vote :=
  { meeting_id := "100", agenda_item := "9a. land use study",
    individual_votes := [("SMITH", "YES"), ("JONES", "NO"), ("CHEN", "Aye")] }

/-- A vote with no individual votes, no tally and a source-claimed result. -/
def staleResult : Vote :=
  { meeting_id := "100", agenda_item := "8c. oral communications",
    result := "Motion Passes" }

/-- A vote whose result gets rederived. -/
def resultFix : Vote :=
  { meeting_id := "100", agenda_item := "8d. administrative matters",
    individual_votes := [("SMITH", "YES"), ("JONES", "YES"), ("CHEN", "NO")] }

/-- Higher-quality observation of a duplicate group: it has an id, seven
individual votes and a frame path, and records SMITH voting YES. -/
def mergeHigh : Vote :=
  { id := some "obs-7", meeting_id := "100",
    agenda_item := "5a. consent calendar", frame_number := some 10,
    individual_votes :=
      [("SMITH", "YES"), ("JONES", "YES"), ("CHEN", "YES"),
       ("KALANI", "YES"), ("GERSON", "YES"), ("MATTUCCI", "YES"),
       ("LEWIS", "YES")],
    frame_path := "frames/a.jpg" }

/-- Lower-quality observation of the same group: no id, two votes, and it
records SMITH voting NO. -/
def mergeLow : Vote :=
  { meeting_id := "100", agenda_item := "5a. consent calendar",
    frame_number := some 12,
    individual_votes := [("SMITH", "NO"), ("REY", "NO")] }

/-- A raw observation fed twice through the bulletproof import. -/
def rawObs : Vote :=
  { id := some "obs-1", meeting_id := "100",
    agenda_item := "5a. consent calendar", frame_number := some 10,
    individual_votes := [("SMITH", "YES")] }

/-- The higher-scored member of a duplicate group (it carries a frame
path). -/
def keepVote : Vote :=
  { id := some "vote-keep", meeting_id := "100",
    agenda_item := "consent calendar", frame_path := "frames/keep.jpg" }

/-- The lower-scored member of the same group, removed by comprehensive
deduplication. -/
def loseVote : Vote :=
  { id := some "vote-lost", meeting_id := "100",
    agenda_item := "consent calendar" }

/-- A vote whose single recorded choice is RECUSE. -/
def recuseVote : Vote :=
  { id := some "vote-r", meeting_id := "100",
    agenda_item := "7a. closed session report",
    individual_votes := [("MATTUCCI", "RECUSE")] }

/-- A vote with a claimed pass result next to zero reported ayes. -/
def passZero : Vote :=
  { id := some "vote-9", result := "Motion Passes",
    agenda_item := "land use study discussion",
    vote_tally := some ⟨0, 0, 0⟩ }

/-- The same vote with a blank result. -/
def blankResult : Vote :=
  { id := some "vote-9", result := "",
    agenda_item := "land use study discussion",
    vote_tally := some ⟨0, 0, 0⟩ }

/-- First-listed member of a score tie: higher frame number,
lexicographically larger id. -/
def tieFirst : Vote :=
  { id := some "vote-b", meeting_id := "100",
    agenda_item := "consent calendar", frame_number := some 12,
    individual_votes := [("SMITH", "YES")], result := "Motion Passes",
    vote_tally := some ⟨1, 0, 0⟩ }

/-- Second-listed member of the tie: lower frame number, smaller id. -/
def tieSecond : Vote :=
  { id := some "vote-a", meeting_id := "100",
    agenda_item := "consent calendar", frame_number := some 10,
    individual_votes := [("SMITH", "YES")], result := "Motion Passes",
    vote_tally := some ⟨1, 0, 0⟩ }

/-- Witness votes for the tiebreak theorem. -/
def wTieA : Vote := { id := some "w-1", meeting_id := "100" }

/-- Lower-scored companion of `wTieA` (no id). -/
def wTieB : Vote := { meeting_id := "100" }

/-- Witness observations for the member-stat theorems: one YES and one
RECUSE choice by the same member. -/
def wStatYes : Vote :=
  { meeting_id := "100", agenda_item := "6a. resolution",
    individual_votes := [("MATTUCCI", "YES")] }

/-- Companion RECUSE observation. -/
def wStatRec : Vote :=
  { meeting_id := "100", agenda_item := "6b. ordinance",
    individual_votes := [("MATTUCCI", "RECUSE")] }

/-- A consolidated vote awaiting a meta id, at frame 500 of a public
hearing. -/
def wAnchor : Bulletproof.VoteData :=
  { meeting_id := "15123",
    agenda_item := "10b. public hearing on land use study",
    frame_number := 500, individual_votes := [], meta_id := none,
    video_timestamp := none, timestamp_estimated := true,
    consolidated_from := ["obs-5"] }

/-- A scraped mapping offered to the bulletproof matcher. -/
def wMappings : List (String × Bulletproof.MetaInfo) :=
  [("321", ⟨1234, false⟩)]

/-- A store vote updated by the meta-id fixer. -/
def wStoreVote : MetaIds.StoreVote :=
  { agenda_item := "10b. public hearing on land use study" }

/-- Candidate meta ids for the fixer, with a timestamp table. -/
def wAvail : List (String × Int) := [("10B PUBLIC HEARING LAND USE STUDY", 321)]

/-- Scraped timestamps keyed by stringified meta id. -/
def wTsMap : List (String × Int) := [("321", 1234)]

/-- A candidate score function clearing the threshold on the single
candidate. -/
def wScore (s : String) : Int := if s == "10B PUBLIC HEARING LAND USE STUDY" then 12 else 0

end Cex

/-! Helper lemmas. -/

theorem pickBest_mem (score : Vote → Int) (vs : List Vote) :
    ∀ v : Vote, pickBest score v vs ∈ v :: vs := by
  induction vs with
  | nil => intro v; simp [pickBest]
  | cons w ws ih =>
      intro v
      simp only [pickBest]
      split
      · have := ih w
        simp only [List.mem_cons] at this ⊢
        tauto
      · have := ih v
        simp only [List.mem_cons] at this ⊢
        tauto

theorem pickBest_le (score : Vote → Int) (vs : List Vote) :
    ∀ v w : Vote, w ∈ v :: vs → score w ≤ score (pickBest score v vs) := by
  induction vs with
  | nil =>
      intro v w hw
      simp at hw
      simp [pickBest, hw]
  | cons u us ih =>
      intro v w hw
      simp only [List.mem_cons] at hw
      simp only [pickBest]
      split
      · rename_i hgt
        rcases hw with h | h | h
        · rw [h]
          exact le_of_lt (lt_of_lt_of_le hgt (ih u u (by simp)))
        · rw [h]
          exact ih u u (by simp)
        · exact ih u w (by simp [h])
      · rename_i hle
        rcases hw with h | h | h
        · rw [h]
          exact ih v v (by simp)
        · rw [h]
          exact le_trans (le_of_not_lt hle) (ih v v (by simp))
        · exact ih v w (by simp [h])

theorem pickBest_first (score : Vote → Int) (v : Vote) :
    ∀ vs : List Vote, (∀ w ∈ vs, score w ≤ score v) →
      pickBest score v vs = v := by
  intro vs
  induction vs with
  | nil => intro _; rfl
  | cons u us ih =>
      intro h
      simp only [pickBest]
      rw [if_neg (not_lt.mpr (h u (by simp)))]
      exact ih (fun w hw => h w (by simp [hw]))

/-! Claim theorems. -/

/-- C1 (amended): `fix_vote_tally_data` recomputes the tally of a vote
only when its stored tally is missing or empty and its individual votes
are non-empty; in that case the new tally is exactly the literal counts
of the individual-vote values (with no recused component — the script
counts only ayes, noes and abstentions). -/
theorem c1_tally_recomputed_only_when_empty (v : Vote)
    (h1 : v.vote_tally = none) (h2 : v.individual_votes ≠ []) :
    (FixVoteTally.fixVote v).vote_tally =
      some ⟨FixVoteTally.countYes v.individual_votes,
            FixVoteTally.countNo v.individual_votes,
            FixVoteTally.countAbst v.individual_votes⟩ := by
  simp [FixVoteTally.fixVote, h1, h2]

/-- Witness for C1 at a concrete vote with three individual votes. -/
theorem c1_tally_witness :
    (FixVoteTally.fixVote Cex.tallyFix).vote_tally = some ⟨2, 1, 0⟩ := by
  rw [c1_tally_recomputed_only_when_empty Cex.tallyFix rfl (by decide)]
  decide

/-- C1 counterexample: a vote with a stored non-empty tally is left
verbatim by `fix_vote_tally_data`, even though its 5 reported ayes differ
from the 0 YES entries among its individual votes — the tally is not
always recomputed. -/
theorem c1_nonempty_tally_kept_verbatim :
    FixVoteTally.fix_vote_tally_data [Cex.tallyKept] = [Cex.tallyKept] ∧
    Cex.tallyKept.vote_tally = some ⟨5, 0, 0⟩ ∧
    FixVoteTally.countYes Cex.tallyKept.individual_votes = 0 ∧
    (5 : Nat) ≠ 0 := by
  refine ⟨by decide, by decide, by decide, by decide⟩

/-- C2 (amended): inside the recompute branch (empty stored tally,
non-empty individual votes) the result written by `fix_vote_tally_data`
is a pure function of the recomputed counts: Motion Passes iff
ayes > noes, Motion Fails iff noes > ayes, Tie iff they are equal.
Votes outside this branch keep their source result unchanged. -/
theorem c2_result_derived_in_fix_branch (v : Vote)
    (h1 : v.vote_tally = none) (h2 : v.individual_votes ≠ []) :
    (((FixVoteTally.fixVote v).result = "Motion Passes") ↔
       FixVoteTally.countNo v.individual_votes <
         FixVoteTally.countYes v.individual_votes) ∧
    (((FixVoteTally.fixVote v).result = "Motion Fails") ↔
       FixVoteTally.countYes v.individual_votes <
         FixVoteTally.countNo v.individual_votes) ∧
    (((FixVoteTally.fixVote v).result = "Tie") ↔
       FixVoteTally.countYes v.individual_votes =
         FixVoteTally.countNo v.individual_votes) := by
  have hres : (FixVoteTally.fixVote v).result =
      (if FixVoteTally.countNo v.individual_votes <
            FixVoteTally.countYes v.individual_votes then "Motion Passes"
       else if FixVoteTally.countYes v.individual_votes <
            FixVoteTally.countNo v.individual_votes then "Motion Fails"
       else "Tie") := by
    simp [FixVoteTally.fixVote, h1, h2]
  rw [hres]
  split_ifs with hgt hlt
  · refine ⟨⟨fun _ => hgt, fun _ => rfl⟩, ?_, ?_⟩
    · exact ⟨fun hc => absurd hc (by decide), fun hc => absurd hc (by omega)⟩
    · exact ⟨fun hc => absurd hc (by decide), fun hc => absurd hc (by omega)⟩
  · refine ⟨?_, ⟨fun _ => hlt, fun _ => rfl⟩, ?_⟩
    · exact ⟨fun hc => absurd hc (by decide), fun hc => absurd hc (by omega)⟩
    · exact ⟨fun hc => absurd hc (by decide), fun hc => absurd hc (by omega)⟩
  · refine ⟨?_, ?_, ⟨fun _ => by omega, fun _ => rfl⟩⟩
    · exact ⟨fun hc => absurd hc (by decide), fun hc => absurd hc (by omega)⟩
    · exact ⟨fun hc => absurd hc (by decide), fun hc => absurd hc (by omega)⟩

/-- Witness for C2: 2 YES against 1 NO yields Motion Passes. -/
theorem c2_result_witness :
    (FixVoteTally.fixVote Cex.resultFix).result = "Motion Passes" := by
  exact ((c2_result_derived_in_fix_branch Cex.resultFix rfl
    (by decide)).1).mpr (by decide)

/-- C2 counterexample: a vote with no individual votes and no tally is
skipped entirely, so it keeps its source-claimed result Motion Passes
although its (empty) tally would derive Tie — a record can carry a result
inconsistent with its own tally. -/
theorem c2_stale_result_kept :
    FixVoteTally.fix_vote_tally_data [Cex.staleResult] = [Cex.staleResult] ∧
    Cex.staleResult.result = "Motion Passes" ∧
    FixVoteTally.countYes Cex.staleResult.individual_votes =
      FixVoteTally.countNo Cex.staleResult.individual_votes ∧
    "Motion Passes" ≠ "Tie" := by
  refine ⟨by decide, by decide, by decide, by decide⟩

/-- C8 (amended): the quality score of `fix_frame_duplicates.py` is
exactly +100 for a truthy id, +10 per individual-vote entry, +5 per unit
of a non-zero reported tally total, +1 per agenda-description character
with no cap, and +20 for a present frame path; it has no
truncated-description penalty and no zero-ayes penalty (a -30 zero-ayes
term exists only in the differently weighted scorer of
`comprehensive_deduplication.py`, alongside +50 and -50 result terms). -/
theorem c8_frame_score_formula (v : Vote) :
    FrameDedup.get_vote_score v =
      (if truthyS v.id then 100 else 0) +
      10 * (v.individual_votes.length : Int) +
      (match v.vote_tally with
       | none => 0
       | some t =>
           if t.ayes + t.noes + t.abstentions > 0 then
             5 * ((t.ayes + t.noes + t.abstentions : Nat) : Int)
           else 0) +
      (v.agenda_item.length : Int) +
      (if !(v.frame_path == "") then 20 else 0) := by
  cases hiv : v.individual_votes <;> cases ht : v.vote_tally <;>
    simp only [FrameDedup.get_vote_score, hiv, ht, List.isEmpty_cons,
      List.isEmpty_nil, Bool.not_true, Bool.not_false, if_true, if_false,
      List.length_nil, List.length_cons] <;>
    split_ifs <;> push_cast <;> ring

/-- C8 counterexample: two votes identical except that one reports
Motion Passes with zero reported ayes score identically under the
`fix_frame_duplicates` scorer (no -30 penalty is applied there), and
under the `comprehensive_deduplication` scorer the pass-with-zero-ayes
vote scores 20 points higher, not 30 lower. -/
theorem c8_no_zero_ayes_penalty :
    FrameDedup.get_vote_score Cex.passZero =
      FrameDedup.get_vote_score Cex.blankResult ∧
    CompDedup.get_vote_score Cex.passZero =
      CompDedup.get_vote_score Cex.blankResult + 20 ∧
    Cex.passZero.result = "Motion Passes" ∧
    CompDedup.tallyAyes Cex.passZero = 0 := by
  refine ⟨by decide, by decide, by decide, by decide⟩

/-- C9 (amended): the vote kept from a duplicate group is the first vote
in input order attaining the maximal quality score: the kept vote is a
group member of maximal score, and whenever the first-listed vote already
has maximal score it is the one kept (Python sort stability); score ties
are thus resolved by input position, not by frame number or id. -/
theorem c9_first_max_selection :
    (∀ (score : Vote → Int) (v : Vote) (vs : List Vote),
        pickBest score v vs ∈ v :: vs ∧
        ∀ w ∈ v :: vs, score w ≤ score (pickBest score v vs)) ∧
    (∀ (score : Vote → Int) (v : Vote) (vs : List Vote),
        (∀ w ∈ vs, score w ≤ score v) → pickBest score v vs = v) := by
  exact ⟨fun score v vs => ⟨pickBest_mem score vs v,
      fun w hw => pickBest_le score vs v w hw⟩,
    fun score v vs h => pickBest_first score v vs h⟩

/-- Witness for C9: the higher-scored first vote of a pair is kept. -/
theorem c9_tie_witness :
    pickBest CompDedup.get_vote_score Cex.wTieA [Cex.wTieB] = Cex.wTieA := by
  exact c9_first_max_selection.2 CompDedup.get_vote_score Cex.wTieA
    [Cex.wTieB] (by decide)

/-- C9 counterexample: two votes tying on quality score are kept in input
order by `comprehensive_deduplication`; swapping the input order changes
the kept vote, and the kept vote of the first order has the higher frame
number and the lexicographically larger id, contradicting the claimed
frame-number/id tiebreak and order independence. -/
theorem c9_tie_depends_on_input_order :
    CompDedup.get_vote_score Cex.tieFirst =
      CompDedup.get_vote_score Cex.tieSecond ∧
    comprehensive_deduplication normKeySimple CompDedup.get_vote_score
      [Cex.tieFirst, Cex.tieSecond] = [Cex.tieFirst] ∧
    comprehensive_deduplication normKeySimple CompDedup.get_vote_score
      [Cex.tieSecond, Cex.tieFirst] = [Cex.tieSecond] ∧
    Cex.tieFirst.frame_number = some 12 ∧
    Cex.tieSecond.frame_number = some 10 ∧
    Cex.tieFirst ≠ Cex.tieSecond := by
  refine ⟨by decide, by decide, by decide, by decide, by decide, by decide⟩

theorem dictGet_cons (p : String × String) (d : List (String × String))
    (k : String) :
    dictGet (p :: d) k = if p.1 == k then some p.2 else dictGet d k := by
  simp only [dictGet, List.find?]
  cases h : (p.1 == k) <;> simp [h]

theorem dictGet_setKey (d : List (String × String)) (k v k2 : String) :
    dictGet (setKey d k v) k2 = if k == k2 then some v else dictGet d k2 := by
  induction d with
  | nil =>
      simp [setKey, dictGet_cons]
  | cons p d ih =>
      simp only [setKey]
      by_cases hpk : p.1 = k
      · rw [if_pos (by simp [hpk])]
        rw [dictGet_cons, dictGet_cons]
        by_cases hk2 : k = k2
        · simp [hk2]
        · have : (k == k2) = false := by simp [hk2]
          simp only [this, if_false]
          rw [hpk]
          simp [this]
      · rw [if_neg (by simp [hpk])]
        rw [dictGet_cons, ih, dictGet_cons]
        by_cases hp2 : p.1 = k2
        · have hkk2 : (k == k2) = false := by
            simp only [beq_eq_false_iff_ne, ne_eq]
            intro h
            exact hpk (by rw [hp2, h])
          simp [hp2, hkk2]
        · simp [hp2]

theorem dictGet_append (d1 d2 : List (String × String)) (k : String) :
    dictGet (d1 ++ d2) k = (dictGet d1 k).or (dictGet d2 k) := by
  induction d1 with
  | nil => simp [dictGet]
  | cons p d ih =>
      rw [List.cons_append, dictGet_cons, dictGet_cons]
      cases h : (p.1 == k) <;> simp [ih]

theorem lastGet_cons (p : String × String) (u : List (String × String))
    (k : String) :
    lastGet (p :: u) k =
      (lastGet u k).or (if p.1 == k then some p.2 else none) := by
  simp only [lastGet, List.reverse_cons]
  rw [dictGet_append]
  congr 1
  rw [dictGet_cons]
  cases h : (p.1 == k) <;> simp [dictGet]

theorem dictGet_dictUpdate (u : List (String × String)) :
    ∀ (d : List (String × String)) (k : String),
      dictGet (dictUpdate d u) k = (lastGet u k).or (dictGet d k) := by
  induction u with
  | nil => intro d k; simp [dictUpdate, lastGet, dictGet]
  | cons p u ih =>
      intro d k
      have hstep : dictUpdate d (p :: u) = dictUpdate (setKey d p.1 p.2) u := by
        simp [dictUpdate]
      rw [hstep, ih, dictGet_setKey, lastGet_cons]
      cases hu : lastGet u k <;> cases hp : (p.1 == k) <;> simp [hp]

theorem mergeIndividual_foldl (votes : List Vote) :
    ∀ (d : List (String × String)) (k : String),
      dictGet (votes.foldl (fun acc v => dictUpdate acc v.individual_votes) d) k
        = (votes.reverse.findSome?
            (fun v => lastGet v.individual_votes k)).or (dictGet d k) := by
  induction votes with
  | nil => intro d k; simp
  | cons v vs ih =>
      intro d k
      simp only [List.foldl_cons, List.reverse_cons]
      rw [ih, List.findSome?_append]
      cases h1 : vs.reverse.findSome? (fun v => lastGet v.individual_votes k)
      · simp only [List.findSome?, dictGet_dictUpdate, Option.none_or]
        cases h2 : lastGet v.individual_votes k <;> simp
      · simp [List.findSome?, dictGet_dictUpdate]

/-- C3 (amended): `consolidate_vote_group` merges the individual-vote
dicts of a group in input order via `dict.update`, so for every member
the surviving choice is the one recorded by the last observation (in
group input order) mentioning that member — regardless of quality score;
quality ordering plays no role in this merge. -/
theorem c3_merge_last_writer_wins (v : Vote) (vs : List Vote) (k : String) :
    dictGet (Bulletproof.consolidate_vote_group v vs).individual_votes k =
      lastProvided (v :: vs) k := by
  show dictGet (Bulletproof.mergeIndividual (v :: vs)) k = _
  rw [Bulletproof.mergeIndividual, mergeIndividual_foldl, lastProvided]
  simp [dictGet]

/-- C3 counterexample: in a two-observation group where the first
observation outscores the second under both repository scorers and
records SMITH voting YES, the merged record stores SMITH voting NO — the
later, lower-scored observation overwrote the higher-scored one, contrary
to the claimed score-ordered merge. -/
theorem c3_higher_score_overwritten :
    dictGet (Bulletproof.consolidate_vote_group Cex.mergeHigh
      [Cex.mergeLow]).individual_votes "SMITH" = some "NO" ∧
    dictGet Cex.mergeHigh.individual_votes "SMITH" = some "YES" ∧
    FrameDedup.get_vote_score Cex.mergeLow <
      FrameDedup.get_vote_score Cex.mergeHigh ∧
    CompDedup.get_vote_score Cex.mergeLow <
      CompDedup.get_vote_score Cex.mergeHigh := by
  refine ⟨by decide, by decide, by decide, by decide⟩

theorem mem_nubAux (x : String) : ∀ (l seen : List String),
    x ∈ nubAux l seen ↔ (x ∈ l ∧ x ∉ seen) := by
  intro l
  induction l with
  | nil => intro seen; simp [nubAux]
  | cons k ks ih =>
      intro seen
      simp only [nubAux]
      by_cases hk : k ∈ seen
      · rw [if_pos hk, ih]
        simp only [List.mem_cons]
        constructor
        · rintro ⟨hx, hs⟩
          exact ⟨Or.inr hx, hs⟩
        · rintro ⟨hx | hx, hs⟩
          · subst hx; exact absurd hk hs
          · exact ⟨hx, hs⟩
      · rw [if_neg hk]
        simp only [List.mem_cons, ih (k :: seen)]
        constructor
        · rintro (rfl | ⟨hx, hs⟩)
          · exact ⟨Or.inl rfl, hk⟩
          · refine ⟨Or.inr hx, fun hxs => hs (by simp [hxs])⟩
        · rintro ⟨hx | hx, hs⟩
          · exact Or.inl hx
          · by_cases hxk : x = k
            · exact Or.inl hxk
            · refine Or.inr ⟨hx, fun hmem => ?_⟩
              rcases hmem with h1 | h1
              · exact hxk h1
              · exact hs h1

theorem nubAux_nodup : ∀ (l seen : List String), (nubAux l seen).Nodup := by
  intro l
  induction l with
  | nil => intro seen; simp [nubAux]
  | cons k ks ih =>
      intro seen
      simp only [nubAux]
      by_cases hk : k ∈ seen
      · rw [if_pos hk]; exact ih seen
      · rw [if_neg hk]
        refine List.nodup_cons.mpr ⟨fun hmem => ?_, ih (k :: seen)⟩
        exact ((mem_nubAux k ks (k :: seen)).mp hmem).2 (by simp)

theorem nub_nodup (l : List String) : (nub l).Nodup := nubAux_nodup l []

theorem mem_nub (x : String) (l : List String) : x ∈ nub l ↔ x ∈ l := by
  rw [nub, mem_nubAux x l []]
  simp

theorem nubAux_eq_self : ∀ (l seen : List String), l.Nodup →
    (∀ x ∈ l, x ∉ seen) → nubAux l seen = l := by
  intro l
  induction l with
  | nil => intro seen _ _; rfl
  | cons k ks ih =>
      intro seen hnd hdis
      simp only [nubAux]
      rw [if_neg (hdis k (by simp))]
      congr 1
      refine ih (k :: seen) (List.nodup_cons.mp hnd).2 ?_
      intro x hx hmem
      rcases List.mem_cons.mp hmem with rfl | hxs
      · exact (List.nodup_cons.mp hnd).1 hx
      · exact hdis x (by simp [hx]) hxs

theorem nub_eq_self (l : List String) (h : l.Nodup) : nub l = l :=
  nubAux_eq_self l [] h (by simp)

theorem filter_key_ne_nil (key : Vote → String) (votes : List Vote)
    (k : String) (hk : k ∈ votes.map key) :
    votes.filter (fun v => key v == k) ≠ [] := by
  rcases List.mem_map.mp hk with ⟨v, hv, hkey⟩
  intro hnil
  have hmem : v ∈ votes.filter (fun v => key v == k) :=
    List.mem_filter.mpr ⟨hv, by simp [hkey]⟩
  rw [hnil] at hmem
  exact absurd hmem (List.not_mem_nil v)

theorem groupPick_some (key : Vote → String) (score : Vote → Int)
    (votes : List Vote) (k : String) (hk : k ∈ votes.map key) :
    ∃ v vs, votes.filter (fun v => key v == k) = v :: vs ∧
      groupPick key score votes k = some (pickBest score v vs) := by
  cases hf : votes.filter (fun v => key v == k) with
  | nil => exact absurd hf (filter_key_ne_nil key votes k hk)
  | cons v vs => exact ⟨v, vs, rfl, by simp [groupPick, hf]⟩

theorem groupPick_key (key : Vote → String) (score : Vote → Int)
    (votes : List Vote) (k : String) (hk : k ∈ votes.map key) (w : Vote)
    (hw : groupPick key score votes k = some w) :
    key w = k ∧ w ∈ votes := by
  rcases groupPick_some key score votes k hk with ⟨v, vs, hf, hg⟩
  rw [hg] at hw
  have hwp : w = pickBest score v vs := (Option.some.injEq _ _ ▸ hw).symm
  have hmem : w ∈ v :: vs := hwp ▸ pickBest_mem score vs v
  rw [← hf] at hmem
  have h2 := List.mem_filter.mp hmem
  exact ⟨by simpa using h2.2, h2.1⟩

theorem dedup_map_key (key : Vote → String) (score : Vote → Int)
    (votes : List Vote) :
    (comprehensive_deduplication key score votes).map key =
      nub (votes.map key) := by
  rw [comprehensive_deduplication]
  have aux : ∀ ks : List String, (∀ k ∈ ks, k ∈ votes.map key) →
      ((ks.filterMap (groupPick key score votes)).map key) = ks := by
    intro ks
    induction ks with
    | nil => intro _; simp
    | cons k ks ih =>
        intro hmem
        rcases groupPick_some key score votes k (hmem k (by simp)) with
          ⟨v, vs, hf, hg⟩
        rw [List.filterMap_cons, hg]
        simp only [List.map_cons]
        have hkey := (groupPick_key key score votes k (hmem k (by simp))
          (pickBest score v vs) hg).1
        rw [hkey, ih (fun x hx => hmem x (by simp [hx]))]
  exact aux (nub (votes.map key)) (fun k hk => (mem_nub k _).mp hk)

theorem filter_key_singleton (key : Vote → String) :
    ∀ (votes : List Vote), (votes.map key).Nodup → ∀ d ∈ votes,
      votes.filter (fun v => key v == key d) = [d] := by
  intro votes
  induction votes with
  | nil => intro _ d hd; simp at hd
  | cons v vs ih =>
      intro hnd d hd
      have hnd2 : key v ∉ vs.map key ∧ (vs.map key).Nodup := by
        rw [List.map_cons, List.nodup_cons] at hnd
        exact hnd
      rcases List.mem_cons.mp hd with rfl | hdvs
      · rw [List.filter_cons]
        have hvs : vs.filter (fun w => key w == key d) = [] := by
          rw [List.filter_eq_nil_iff]
          intro w hw hbeq
          exact hnd2.1 (by
            have : key w = key d := by simpa using hbeq
            rw [← this]
            exact List.mem_map_of_mem key hw)
        simp [hvs]
      · have hne : (key v == key d) = false := by
          simp only [beq_eq_false_iff_ne, ne_eq]
          intro h
          exact hnd2.1 (h ▸ List.mem_map_of_mem key hdvs)
        rw [List.filter_cons]
        simp only [hne, Bool.false_eq_true, if_false]
        exact ih hnd2.2 d hdvs

theorem filterMap_map_key_id (key : Vote → String)
    (f : String → Option Vote) :
    ∀ l : List Vote, (∀ d ∈ l, f (key d) = some d) →
      (l.map key).filterMap f = l := by
  intro l
  induction l with
  | nil => intro _; simp
  | cons d ds ih =>
      intro h
      rw [List.map_cons, List.filterMap_cons, h d (by simp)]
      rw [ih (fun x hx => h x (by simp [hx]))]

theorem dedup_fixed (key : Vote → String) (score : Vote → Int)
    (votes : List Vote) (hnd : (votes.map key).Nodup) :
    comprehensive_deduplication key score votes = votes := by
  rw [comprehensive_deduplication, nub_eq_self _ hnd]
  refine filterMap_map_key_id key _ votes ?_
  intro d hd
  rw [groupPick, filter_key_singleton key votes hnd d hd]
  rfl

/-- C4 (amended): the vote-list transformation of
`comprehensive_deduplication` is idempotent for every grouping key and
every score function: its output has pairwise distinct group keys, so a
second run finds only singleton groups and returns the list unchanged.
(The bulletproof import pipeline, by contrast, is not idempotent — see
the counterexample.) -/
theorem c4_comprehensive_dedup_idempotent (key : Vote → String)
    (score : Vote → Int) (votes : List Vote) :
    comprehensive_deduplication key score
        (comprehensive_deduplication key score votes) =
      comprehensive_deduplication key score votes := by
  refine dedup_fixed key score _ ?_
  rw [dedup_map_key]
  exact nub_nodup _

/-- C4 counterexample: importing the same single raw observation twice
through the bulletproof pipeline (`deduplicate_votes` followed by
`merge_with_existing_data`, which concatenates the new votes onto the
existing store) doubles the stored vote list instead of leaving it
fixed — running the consolidation on its own output changes it. -/
theorem c4_import_twice_duplicates :
    Bulletproof.merge_with_existing_votes
        (Bulletproof.merge_with_existing_votes []
          (Bulletproof.deduplicate_votes [Cex.rawObs]))
        (Bulletproof.deduplicate_votes [Cex.rawObs]) ≠
      Bulletproof.merge_with_existing_votes []
        (Bulletproof.deduplicate_votes [Cex.rawObs]) ∧
    (Bulletproof.merge_with_existing_votes
        (Bulletproof.merge_with_existing_votes []
          (Bulletproof.deduplicate_votes [Cex.rawObs]))
        (Bulletproof.deduplicate_votes [Cex.rawObs])).length = 2 ∧
    (Bulletproof.merge_with_existing_votes []
        (Bulletproof.deduplicate_votes [Cex.rawObs])).length = 1 := by
  refine ⟨by decide, by decide, by decide⟩

theorem groupConsolidate_len (votes : List Vote) (k : String)
    (hk : k ∈ votes.map Bulletproof.bpKey) :
    ∃ d, Bulletproof.groupConsolidate votes k = some d ∧
      d.consolidated_from.length =
        (votes.filter (fun v => Bulletproof.bpKey v == k)).length := by
  cases hf : votes.filter (fun v => Bulletproof.bpKey v == k) with
  | nil => exact absurd hf (filter_key_ne_nil Bulletproof.bpKey votes k hk)
  | cons v vs =>
      cases vs with
      | nil =>
          refine ⟨Bulletproof.process_single_vote v, ?_, by
            simp [Bulletproof.process_single_vote]⟩
          simp [Bulletproof.groupConsolidate, hf]
      | cons w ws =>
          refine ⟨Bulletproof.consolidate_vote_group v (w :: ws), ?_, by
            simp [Bulletproof.consolidate_vote_group]⟩
          simp [Bulletproof.groupConsolidate, hf]

theorem count_map_key (votes : List Vote) (keyf : Vote → String)
    (k : String) :
    (votes.map keyf).count k = votes.countP (fun v => keyf v == k) := by
  induction votes with
  | nil => simp
  | cons v vs ih =>
      rw [List.map_cons, List.count_cons, List.countP_cons, ih]

theorem sum_nub_filter_len (votes : List Vote) (keyf : Vote → String) :
    ((nub (votes.map keyf)).map
      (fun k => (votes.filter (fun v => keyf v == k)).length)).sum =
      votes.length := by
  have htof : (nub (votes.map keyf)).toFinset = (votes.map keyf).toFinset := by
    ext x
    simp [List.mem_toFinset, mem_nub]
  have h1 : ((nub (votes.map keyf)).map
      (fun k => (votes.filter (fun v => keyf v == k)).length)).sum =
      ∑ k ∈ (nub (votes.map keyf)).toFinset,
        (votes.filter (fun v => keyf v == k)).length :=
    (List.sum_toFinset _ (nub_nodup _)).symm
  rw [h1, htof]
  have h2 : ∀ k, (votes.filter (fun v => keyf v == k)).length =
      (votes.map keyf).count k := by
    intro k
    rw [count_map_key]
    exact (List.countP_eq_length_filter _ _).symm
  calc ∑ k ∈ (votes.map keyf).toFinset,
        (votes.filter (fun v => keyf v == k)).length
      = ∑ k ∈ (votes.map keyf).toFinset, (votes.map keyf).count k :=
        Finset.sum_congr rfl (fun k _ => h2 k)
    _ = (votes.map keyf).length := List.sum_toFinset_count_eq_length _
    _ = votes.length := List.length_map _ _

/-- C5 (amended): `deduplicate_votes` of the bulletproof import conserves
observations without needing a drop list: the provenance lists
(`consolidated_from`) of its output records together contain exactly one
entry per input observation, so their total length equals the input
count.  (`comprehensive_deduplication`, by contrast, discards the
non-best members of each group without recording their ids — see the
counterexample.) -/
theorem c5_dedup_votes_conservation (votes : List Vote) :
    ((Bulletproof.deduplicate_votes votes).map
      (fun d => d.consolidated_from.length)).sum = votes.length := by
  rw [Bulletproof.deduplicate_votes]
  have aux : ∀ ks : List String,
      (∀ k ∈ ks, k ∈ votes.map Bulletproof.bpKey) →
      ((ks.filterMap (Bulletproof.groupConsolidate votes)).map
        (fun d => d.consolidated_from.length)).sum =
      (ks.map (fun k =>
        (votes.filter (fun v => Bulletproof.bpKey v == k)).length)).sum := by
    intro ks
    induction ks with
    | nil => intro _; simp
    | cons k ks ih =>
        intro hmem
        rcases groupConsolidate_len votes k (hmem k (by simp)) with
          ⟨d, hd, hlen⟩
        rw [List.filterMap_cons, hd, List.map_cons, List.map_cons,
          List.sum_cons, List.sum_cons, hlen,
          ih (fun x hx => hmem x (by simp [hx]))]
  rw [aux (nub (votes.map Bulletproof.bpKey))
    (fun k hk => (mem_nub k _).mp hk)]
  exact sum_nub_filter_len votes Bulletproof.bpKey

/-- C5 counterexample: `comprehensive_deduplication` removes the
lower-scored member of a duplicate group, and the removed observation id
appears in no kept record (the kept vote is the raw winning dict, whose
only id is its own) while the run records just a removed count, not a
drop list — the observation vanishes from the output. -/
theorem c5_removed_vote_vanishes :
    comprehensive_deduplication normKeySimple CompDedup.get_vote_score
      [Cex.keepVote, Cex.loseVote] = [Cex.keepVote] ∧
    Cex.loseVote.id = some "vote-lost" ∧
    (comprehensive_deduplication normKeySimple CompDedup.get_vote_score
      [Cex.keepVote, Cex.loseVote]).map (fun v => v.id) =
      [some "vote-keep"] ∧
    ([Cex.keepVote, Cex.loseVote].length : Nat) = 2 := by
  refine ⟨by decide, by decide, by decide, by decide⟩

theorem foldl_flat (votes : List Vote) :
    ∀ st : List (String × UpdateStats.StatRec),
      votes.foldl (fun s v =>
        v.individual_votes.foldl (fun s2 p => UpdateStats.updateEntry s2 p.1 p.2) s) st =
      (votes.flatMap (fun v => v.individual_votes)).foldl
        (fun s p => UpdateStats.updateEntry s p.1 p.2) st := by
  induction votes with
  | nil => intro st; simp
  | cons v vs ih =>
      intro st
      rw [List.foldl_cons, List.flatMap_cons, List.foldl_append, ih]

theorem update_eq_statsOfEntries (votes : List Vote) :
    UpdateStats.update_councilmember_stats votes =
      UpdateStats.statsOfEntries (votes.flatMap (fun v => v.individual_votes)) :=
  foldl_flat votes []

theorem statUpd_total (s : UpdateStats.StatRec) (c : String) :
    (UpdateStats.statUpd s c).total_votes = s.total_votes + 1 := by
  simp only [UpdateStats.statUpd]
  split_ifs <;> rfl

theorem totalSum_updateEntry :
    ∀ (st : List (String × UpdateStats.StatRec)) (m c : String),
      UpdateStats.totalSum (UpdateStats.updateEntry st m c) =
        UpdateStats.totalSum st + 1 := by
  intro st
  induction st with
  | nil =>
      intro m c
      simp [UpdateStats.updateEntry, UpdateStats.totalSum, statUpd_total,
        UpdateStats.zeroStat]
  | cons p st ih =>
      intro m c
      simp only [UpdateStats.updateEntry]
      by_cases hp : (p.1 == m) = true
      · rw [if_pos hp]
        simp [UpdateStats.totalSum, statUpd_total]
        omega
      · rw [if_neg hp]
        simp only [UpdateStats.totalSum, List.map_cons, List.sum_cons]
        have := ih m c
        simp only [UpdateStats.totalSum] at this
        omega

theorem totalSum_foldl :
    ∀ (entries : List (String × String)) (st : List (String × UpdateStats.StatRec)),
      UpdateStats.totalSum (entries.foldl
          (fun s p => UpdateStats.updateEntry s p.1 p.2) st) =
        UpdateStats.totalSum st + entries.length := by
  intro entries
  induction entries with
  | nil => intro st; simp
  | cons p es ih =>
      intro st
      rw [List.foldl_cons, ih, totalSum_updateEntry]
      simp
      omega

/-- C6 (amended): the member stats are recomputed by a full replay over
the vote list into a fresh dict, and the sum of `total_votes` over all
members equals the total number of `individual_votes` entries across all
votes.  (The per-member four-bucket identity of the claim fails: the
stats carry no recused bucket and `total_votes` is a separately
incremented per-entry counter — see the counterexample.) -/
theorem c6_total_votes_sum_replay (votes : List Vote) :
    UpdateStats.totalSum (UpdateStats.update_councilmember_stats votes) =
      (votes.map (fun v => v.individual_votes.length)).sum := by
  rw [update_eq_statsOfEntries, UpdateStats.statsOfEntries, totalSum_foldl]
  simp only [UpdateStats.totalSum, List.length_flatMap, List.map_nil,
    List.sum_nil, Nat.zero_add]
  rfl

/-- C6 counterexample: a single RECUSE choice yields a member record with
`total_votes = 1` but all three existing buckets zero; the produced stats
have no recused bucket at all, so the total is not the sum of the named
buckets. -/
theorem c6_no_recused_bucket :
    UpdateStats.update_councilmember_stats [Cex.recuseVote] =
      [("MATTUCCI", ⟨1, 0, 0, 0⟩)] ∧
    (1 : Nat) ≠ 0 + 0 + 0 := by
  refine ⟨by decide, by decide⟩

theorem statLookup_cons (p : String × UpdateStats.StatRec)
    (st : List (String × UpdateStats.StatRec)) (m : String) :
    UpdateStats.statLookup (p :: st) m =
      if p.1 == m then some p.2 else UpdateStats.statLookup st m := by
  simp only [UpdateStats.statLookup, List.find?]
  cases h : (p.1 == m) <;> simp [h]

theorem updateEntry_lookup :
    ∀ (st : List (String × UpdateStats.StatRec)) (m0 c m : String),
      UpdateStats.statLookup (UpdateStats.updateEntry st m0 c) m =
        if m0 == m then
          some (UpdateStats.statUpd
            ((UpdateStats.statLookup st m0).getD UpdateStats.zeroStat) c)
        else UpdateStats.statLookup st m := by
  intro st
  induction st with
  | nil =>
      intro m0 c m
      simp only [UpdateStats.updateEntry, statLookup_cons]
      cases h : (m0 == m) <;> simp [h, UpdateStats.statLookup]
  | cons p st ih =>
      intro m0 c m
      simp only [UpdateStats.updateEntry]
      by_cases hp : p.1 = m0
      · rw [if_pos (by simp [hp])]
        rw [statLookup_cons, statLookup_cons]
        by_cases hm : m0 = m
        · rw [if_pos (by simp [hp, hm] : (p.1 == m) = true),
            if_pos (by simp [hm] : (m0 == m) = true)]
          rw [hp]
          simp [statLookup_cons]
        · rw [if_neg (by simp [hp, hm] : ¬(p.1 == m) = true),
            if_neg (by simp [hm] : ¬(m0 == m) = true)]
          rw [statLookup_cons, if_neg (by simp [hp, hm] : ¬(p.1 == m) = true)]
      · rw [if_neg (by simp [hp])]
        rw [statLookup_cons, ih, statLookup_cons]
        by_cases hpm : p.1 = m
        · have hm : (m0 == m) = false := by
            simp only [beq_eq_false_iff_ne, ne_eq]
            intro h
            exact hp (by rw [hpm, h])
          rw [if_pos (by simp [hpm] : (p.1 == m) = true), hm]
          simp only [Bool.false_eq_true, if_false]
          rw [statLookup_cons, if_pos (by simp [hpm] : (p.1 == m) = true)]
        · rw [if_neg (by simp [hpm] : ¬(p.1 == m) = true)]
          by_cases hm : m0 = m
          · rw [if_pos (by simp [hm] : (m0 == m) = true),
              if_pos (by simp [hm] : (m0 == m) = true)]
            rw [if_neg (by simp [hp] : ¬(p.1 == m0) = true)]
          · rw [if_neg (by simp [hm] : ¬(m0 == m) = true),
              if_neg (by simp [hm] : ¬(m0 == m) = true)]
            rw [statLookup_cons, if_neg (by simp [hpm] : ¬(p.1 == m) = true)]

theorem cntYes_le_cntAll (es : List (String × String)) (m : String) :
    UpdateStats.cntYes es m ≤ UpdateStats.cntAll es m :=
  List.countP_mono_left (fun p _ h => by
    simp only [Bool.and_eq_true] at h
    exact h.1)

theorem cntNo_le_cntAll (es : List (String × String)) (m : String) :
    UpdateStats.cntNo es m ≤ UpdateStats.cntAll es m :=
  List.countP_mono_left (fun p _ h => by
    simp only [Bool.and_eq_true] at h
    exact h.1)

theorem cntAbst_le_cntAll (es : List (String × String)) (m : String) :
    UpdateStats.cntAbst es m ≤ UpdateStats.cntAll es m :=
  List.countP_mono_left (fun p _ h => by
    simp only [Bool.and_eq_true] at h
    exact h.1)

theorem bump_zero (r : UpdateStats.StatRec) (es : List (String × String))
    (m : String) (hz : UpdateStats.cntAll es m = 0) :
    UpdateStats.bumpRec r es m = r := by
  have h1 := cntYes_le_cntAll es m
  have h2 := cntNo_le_cntAll es m
  have h3 := cntAbst_le_cntAll es m
  simp only [UpdateStats.bumpRec, hz]
  cases r
  simp only [UpdateStats.StatRec.mk.injEq]
  omega

theorem bump_nomatch (r : UpdateStats.StatRec) (p : String × String)
    (es : List (String × String)) (m : String) (hp : (p.1 == m) = false) :
    UpdateStats.bumpRec r (p :: es) m = UpdateStats.bumpRec r es m := by
  simp [UpdateStats.bumpRec, UpdateStats.cntAll, UpdateStats.cntYes,
    UpdateStats.cntNo, UpdateStats.cntAbst, List.countP_cons, hp]

theorem bump_match (r : UpdateStats.StatRec) (p : String × String)
    (es : List (String × String)) (m : String) (hp : (p.1 == m) = true) :
    UpdateStats.bumpRec (UpdateStats.statUpd r p.2) es m =
      UpdateStats.bumpRec r (p :: es) m := by
  simp only [UpdateStats.bumpRec, UpdateStats.statUpd, UpdateStats.cntAll,
    UpdateStats.cntYes, UpdateStats.cntNo, UpdateStats.cntAbst,
    List.countP_cons, hp]
  by_cases h1 : upStr p.2 = "YES" <;> by_cases h2 : upStr p.2 = "NO" <;>
    by_cases h3 : upStr p.2 = "ABSTAIN" <;>
    simp_all <;> cases r <;> simp only [UpdateStats.StatRec.mk.injEq] <;>
    and_intros <;> omega

theorem statLookup_foldl :
    ∀ (entries : List (String × String))
      (st : List (String × UpdateStats.StatRec)) (m : String),
      UpdateStats.statLookup (entries.foldl
          (fun s p => UpdateStats.updateEntry s p.1 p.2) st) m =
        if UpdateStats.cntAll entries m = 0 then UpdateStats.statLookup st m
        else some (UpdateStats.bumpRec
          ((UpdateStats.statLookup st m).getD UpdateStats.zeroStat)
          entries m) := by
  intro entries
  induction entries with
  | nil => intro st m; simp [UpdateStats.cntAll]
  | cons p es ih =>
      intro st m
      rw [List.foldl_cons, ih]
      by_cases hp : (p.1 == m) = true
      · have hp1 : p.1 = m := by simpa using hp
        have hlook : UpdateStats.statLookup
            (UpdateStats.updateEntry st p.1 p.2) m =
            some (UpdateStats.statUpd
              ((UpdateStats.statLookup st m).getD UpdateStats.zeroStat) p.2) := by
          rw [updateEntry_lookup, if_pos hp, hp1]
        rw [hlook]
        have hcnt : UpdateStats.cntAll (p :: es) m =
            UpdateStats.cntAll es m + 1 := by
          simp [UpdateStats.cntAll, List.countP_cons, hp]
        by_cases hz : UpdateStats.cntAll es m = 0
        · rw [if_pos hz, if_neg (by omega)]
          rw [← bump_match _ p es m hp, bump_zero _ _ _ hz]
        · rw [if_neg hz, if_neg (by omega)]
          simp only [Option.getD_some]
          rw [bump_match _ p es m hp]
      · have hp2 : (p.1 == m) = false := by
          cases h : (p.1 == m)
          · rfl
          · exact absurd h hp
        have hlook : UpdateStats.statLookup
            (UpdateStats.updateEntry st p.1 p.2) m =
            UpdateStats.statLookup st m := by
          rw [updateEntry_lookup, if_neg (by simp [hp2])]
        rw [hlook]
        have hcnt : UpdateStats.cntAll (p :: es) m = UpdateStats.cntAll es m := by
          simp [UpdateStats.cntAll, List.countP_cons, hp2]
        rw [hcnt, bump_nomatch _ p es m hp2]

theorem cnt_partition (es : List (String × String)) (m : String) :
    UpdateStats.cntAll es m =
      UpdateStats.cntYes es m + UpdateStats.cntNo es m +
        UpdateStats.cntAbst es m + UpdateStats.cntUnrec es m := by
  induction es with
  | nil => simp [UpdateStats.cntAll, UpdateStats.cntYes, UpdateStats.cntNo,
      UpdateStats.cntAbst, UpdateStats.cntUnrec]
  | cons p es ih =>
      simp only [UpdateStats.cntAll, UpdateStats.cntYes, UpdateStats.cntNo,
        UpdateStats.cntAbst, UpdateStats.cntUnrec, List.countP_cons] at ih ⊢
      by_cases hp : (p.1 == m) = true <;>
        by_cases h1 : upStr p.2 = "YES" <;>
        by_cases h2 : upStr p.2 = "NO" <;>
        by_cases h3 : upStr p.2 = "ABSTAIN" <;>
        simp_all [UpdateStats.isUnrec] <;> omega

/-- C10: for every member appearing in the recomputed stats, the three
named buckets sum to at most `total_votes`, with strict inequality
exactly when at least one of that member's recorded choices upper-cases
to something other than YES, NO or ABSTAIN (such a choice increments the
total but no named bucket). -/
theorem c10_bucket_sum_le_total (votes : List Vote) (m : String)
    (r : UpdateStats.StatRec)
    (h : UpdateStats.statLookup
      (UpdateStats.update_councilmember_stats votes) m = some r) :
    r.yes_votes + r.no_votes + r.abstentions ≤ r.total_votes ∧
    (r.yes_votes + r.no_votes + r.abstentions < r.total_votes ↔
      0 < UpdateStats.unrecCount votes m) := by
  rw [update_eq_statsOfEntries, UpdateStats.statsOfEntries,
    statLookup_foldl] at h
  by_cases hz :
      UpdateStats.cntAll (votes.flatMap (fun v => v.individual_votes)) m = 0
  · rw [if_pos hz] at h
    simp [UpdateStats.statLookup] at h
  · rw [if_neg hz] at h
    have hr : r = UpdateStats.bumpRec UpdateStats.zeroStat
        (votes.flatMap (fun v => v.individual_votes)) m := by
      have := h.symm
      simpa [UpdateStats.statLookup] using this
    have hpart := cnt_partition (votes.flatMap (fun v => v.individual_votes)) m
    have hun : UpdateStats.unrecCount votes m =
        UpdateStats.cntUnrec (votes.flatMap (fun v => v.individual_votes)) m :=
      rfl
    subst hr
    simp only [UpdateStats.bumpRec, UpdateStats.zeroStat, hun]
    constructor
    · omega
    · omega

/-- Witness for C10 on one YES and one RECUSE choice by the same member:
buckets sum to 1, total is 2, and the strict gap certifies the RECUSE. -/
theorem c10_bucket_witness :
    ((⟨2, 1, 0, 0⟩ : UpdateStats.StatRec).yes_votes +
        (⟨2, 1, 0, 0⟩ : UpdateStats.StatRec).no_votes +
        (⟨2, 1, 0, 0⟩ : UpdateStats.StatRec).abstentions ≤
      (⟨2, 1, 0, 0⟩ : UpdateStats.StatRec).total_votes) ∧
    ((⟨2, 1, 0, 0⟩ : UpdateStats.StatRec).yes_votes +
        (⟨2, 1, 0, 0⟩ : UpdateStats.StatRec).no_votes +
        (⟨2, 1, 0, 0⟩ : UpdateStats.StatRec).abstentions <
      (⟨2, 1, 0, 0⟩ : UpdateStats.StatRec).total_votes ↔
      0 < UpdateStats.unrecCount [Cex.wStatYes, Cex.wStatRec] "MATTUCCI") :=
  c10_bucket_sum_le_total [Cex.wStatYes, Cex.wStatRec] "MATTUCCI"
    ⟨2, 1, 0, 0⟩ (by decide)

theorem foldBestI (score : String → Int) :
    ∀ (l : List (String × Int)) (acc : Option Int × Int),
      l.foldl (fun acc p =>
        if score p.1 > acc.2 then (some p.2, score p.1) else acc) acc = acc ∨
      ∃ p ∈ l, l.foldl (fun acc p =>
        if score p.1 > acc.2 then (some p.2, score p.1) else acc) acc =
          (some p.2, score p.1) := by
  intro l
  induction l with
  | nil => intro acc; left; rfl
  | cons q qs ih =>
      intro acc
      rw [List.foldl_cons]
      by_cases hq : score q.1 > acc.2
      · rw [if_pos hq]
        rcases ih (some q.2, score q.1) with h | ⟨p, hp, h⟩
        · right
          exact ⟨q, by simp, h⟩
        · right
          exact ⟨p, by simp [hp], h⟩
      · rw [if_neg hq]
        rcases ih acc with h | ⟨p, hp, h⟩
        · left; exact h
        · right; exact ⟨p, by simp [hp], h⟩

theorem find_best_accepted (score : String → Int)
    (avail : List (String × Int)) (mid : Int)
    (h : MetaIds.find_best_meta_id_match score avail = some mid) :
    ∃ p ∈ avail, p.2 = mid ∧ 5 ≤ score p.1 := by
  rw [MetaIds.find_best_meta_id_match] at h
  split at h
  · rename_i hge
    rcases foldBestI score avail (none, 0) with hf | ⟨p, hp, hf⟩
    · rw [hf] at h hge
      exact absurd h (by simp)
    · rw [hf] at h hge
      simp only at h hge
      refine ⟨p, hp, ?_, by simpa using hge⟩
      have := Option.some.inj h
      exact this
  · exact absurd h (by simp)

theorem foldQ_le (v : Bulletproof.VoteData) :
    ∀ (l : List (String × Bulletproof.MetaInfo)) (acc : Option String × ℚ),
      acc.2 ≤ 3 / 10 →
      (l.foldl (fun acc p =>
        if Bulletproof.calculate_match_score v p.1 > acc.2 then
          (some p.1, Bulletproof.calculate_match_score v p.1)
        else acc) acc).2 ≤ 3 / 10 := by
  intro l
  induction l with
  | nil => intro acc h; exact h
  | cons q qs ih =>
      intro acc h
      rw [List.foldl_cons]
      by_cases hq : Bulletproof.calculate_match_score v q.1 > acc.2
      · rw [if_pos hq]
        exact ih _ (by simp [Bulletproof.calculate_match_score])
      · rw [if_neg hq]
        exact ih acc h

theorem find_best_meta_match_none (v : Bulletproof.VoteData)
    (mappings : List (String × Bulletproof.MetaInfo)) :
    Bulletproof.find_best_meta_match v mappings = none := by
  rw [Bulletproof.find_best_meta_match]
  have hle := foldQ_le v mappings (none, 0) (by norm_num)
  rw [if_neg (by
    intro hgt
    have : (1 : ℚ) / 2 < 3 / 10 := lt_of_lt_of_le hgt hle
    norm_num at this)]

theorem processVoteMeta_fallback (v : Bulletproof.VoteData)
    (mappings : List (String × Bulletproof.MetaInfo))
    (h : v.meta_id = none) :
    Bulletproof.processVoteMeta v v.meeting_id mappings =
      { v with
        meta_id := some (v.meeting_id ++ Bulletproof.pad4 v.frame_number)
        video_timestamp := some (Bulletproof.estimate_timestamp_from_agenda
          v.agenda_item v.frame_number)
        timestamp_estimated := true } := by
  rw [Bulletproof.processVoteMeta]
  rw [if_pos (by simp [h])]
  rw [find_best_meta_match_none]

theorem fix_vote_meta_cases (score : String → Int)
    (avail tsMap : List (String × Int)) (v : MetaIds.StoreVote) :
    MetaIds.fix_vote_meta score avail tsMap v = v ∨
    ((MetaIds.fix_vote_meta score avail tsMap v).timestamp_estimated =
        some false ∧
      ∃ p ∈ avail, (MetaIds.fix_vote_meta score avail tsMap v).meta_id =
        some p.2 ∧ 5 ≤ score p.1) := by
  by_cases hskip : (MetaIds.truthyI v.meta_id &&
      MetaIds.truthyI v.video_timestamp &&
      !(MetaIds.truthyB v.timestamp_estimated)) = true
  · left
    rw [MetaIds.fix_vote_meta, if_pos hskip]
  · rw [MetaIds.fix_vote_meta, if_neg hskip]
    cases hfind : MetaIds.find_best_meta_id_match score avail with
    | none => left; simp [hfind]
    | some mid =>
        cases hts : MetaIds.tsGet tsMap (toString mid) with
        | none => left; simp [hfind, hts]
        | some ts =>
            right
            rcases find_best_accepted score avail mid hfind with
              ⟨p, hp, hpm, hps⟩
            simp only [hfind, hts]
            exact ⟨by simp, p, hp, by simp [hpm], hps⟩

/-- C7: anchor matching accepts a candidate only when its score clears
the fixed threshold, and recovers locally otherwise.  Precisely:
(1) whenever `find_best_meta_id_match` of `fix_all_meta_ids.py` returns a
meta id, that id belongs to a candidate whose score reaches the threshold
5; (2) in the bulletproof import, a vote without a meta id falls back
(never fatally) to the deterministic estimate
`frame_number * 30 + category offset` and is flagged
`timestamp_estimated = true` (its constant 0.3 match score never exceeds
the 0.5 acceptance bound); (3) the meta-id fixer either leaves a vote
unchanged or installs an accepted above-threshold match flagged
`timestamp_estimated = false`. -/
theorem c7_anchor_threshold_and_fallback :
    (∀ (score : String → Int) (avail : List (String × Int)) (mid : Int),
        MetaIds.find_best_meta_id_match score avail = some mid →
        ∃ p ∈ avail, p.2 = mid ∧ 5 ≤ score p.1) ∧
    (∀ (v : Bulletproof.VoteData)
        (mappings : List (String × Bulletproof.MetaInfo)),
        v.meta_id = none →
        (Bulletproof.processVoteMeta v v.meeting_id
            mappings).timestamp_estimated = true ∧
        (Bulletproof.processVoteMeta v v.meeting_id
            mappings).video_timestamp =
          some (Bulletproof.estimate_timestamp_from_agenda v.agenda_item
            v.frame_number)) ∧
    (∀ (score : String → Int) (avail tsMap : List (String × Int))
        (v : MetaIds.StoreVote),
        MetaIds.fix_vote_meta score avail tsMap v = v ∨
        ((MetaIds.fix_vote_meta score avail tsMap v).timestamp_estimated =
            some false ∧
          ∃ p ∈ avail, (MetaIds.fix_vote_meta score avail tsMap v).meta_id =
            some p.2 ∧ 5 ≤ score p.1)) := by
  refine ⟨find_best_accepted, ?_, fix_vote_meta_cases⟩
  intro v mappings h
  rw [processVoteMeta_fallback v mappings h]
  exact ⟨rfl, rfl⟩

/-- Witness for C7: a public-hearing vote at frame 500 with no meta id
receives the estimated timestamp and the estimated flag. -/
theorem c7_anchor_witness :
    (Bulletproof.processVoteMeta Cex.wAnchor Cex.wAnchor.meeting_id
        Cex.wMappings).timestamp_estimated = true ∧
    (Bulletproof.processVoteMeta Cex.wAnchor Cex.wAnchor.meeting_id
        Cex.wMappings).video_timestamp =
      some (Bulletproof.estimate_timestamp_from_agenda
        Cex.wAnchor.agenda_item Cex.wAnchor.frame_number) :=
  c7_anchor_threshold_and_fallback.2.1 Cex.wAnchor Cex.wMappings rfl
